import Mathlib

/-!
Shallow embedding of the policy-gate subsystem of the `wdk` manager
(`src/wdk-manager.js`, `src/errors/PolicyViolationError.js`).

JavaScript values passed through gated methods are modelled by `Value`;
machine state that the code stores on instances behind private symbols
(`INSTANCE_POLICY_SYMBOL`, `INSTANCE_WRAPPED_SYMBOL`) is modelled by the
explicit `Instance` record, and the manager's process-wide `_policies`
array by an explicit list threaded through `registerPolicies`.
-/

namespace WDK

/-- A JavaScript value, as far as the gate observes it.  `promise v` models a
Promise that settles with `v`; an `async` function always returns its result
wrapped this way. -/
inductive Value where
  | undefined
  | num (n : Int)
  | str (s : String)
  | promise (v : Value)
deriving DecidableEq, Repr

/-- The `protocol` sub-object of a `PolicyTarget` (`{blockchain, label}`);
`none` models an absent (`undefined`) field. -/
structure ProtocolTarget where
  blockchain : Option String
  label : Option String
deriving DecidableEq, Repr

/-- A `PolicyTarget` scope descriptor (`{wallet, protocol}`); `none` models an
absent (`undefined`) field. -/
structure PolicyTarget where
  wallet : Option String
  protocol : Option ProtocolTarget
deriving DecidableEq, Repr

/-- Outcome of one `policy.evaluate(...)` call: either it returns a value
whose truthiness is `truthy`, or it throws / rejects (`fault`, with an opaque
error identity `errId`). -/
inductive EvalResult where
  | ok (truthy : Bool)
  | fault (errId : Nat)
deriving DecidableEq, Repr

/-- The `method` field of a policy: absent (`undefined`), a single string, or
an array of strings. -/
inductive MethodField where
  | absent
  | one (s : String)
  | many (ss : List String)
deriving DecidableEq, Repr

/-- A registered policy object.  `id` models JavaScript object identity (the
`list.includes(policy)` check compares references); `evaluate` receives the
fields of the `{ method, params, target }` object the code passes. -/
structure Policy where
  id : Nat
  name : String
  target : Option PolicyTarget
  method : MethodField
  evaluate : String → Value → PolicyTarget → EvalResult

/-- A failure escaping a gated call before the original method runs: either a
`PolicyViolationError(policy.name, method, target)` (which carries exactly the
rejecting policy's name, the method name and the scope descriptor), or the
fault of an `evaluate` that itself threw, propagated unchanged. -/
inductive PolicyFailure where
  | violation (policyName : String) (methodName : String) (target : PolicyTarget)
  | evalFault (errId : Nat)
deriving DecidableEq, Repr

/-- A runtime `TypeError` raised by the gate's own code.  `setRequiresNew` is
the TypeError thrown by `methods = Set()` (calling the `Set` constructor
without `new`) on the capability-scan branch of `_withPolicyGate`. -/
inductive JsError where
  | setRequiresNew
deriving DecidableEq, Repr

/-- JavaScript truthiness of an optional string field: `undefined` and the
empty string are falsy. -/
def truthyStr : Option String → Bool
  | none => false
  | some s => s ≠ ""

def emptyProto : ProtocolTarget := ⟨none, none⟩

def emptyTarget : PolicyTarget := ⟨none, none⟩

/-- The target filter at the head of the policy loop of `_withPolicyGate`:
`policyTarget.wallet && policyTarget.wallet !== target.wallet` skips the
policy, and when `policyTarget.protocol` is set, a truthy `blockchain` or
`label` sub-field differing from the scope's (`target.protocol || {}`) skips
the policy. -/
def matchesTarget (policy : Policy) (target : PolicyTarget) : Bool :=
  let pt := policy.target.getD emptyTarget
  if truthyStr pt.wallet && pt.wallet != target.wallet then
    false
  else
    match pt.protocol with
    | none => true
    | some pp =>
      let tp := target.protocol.getD emptyProto
      if truthyStr pp.blockchain && pp.blockchain != tp.blockchain then false
      else if truthyStr pp.label && pp.label != tp.label then false
      else true

/-- The sequential evaluator `runPolicies`, instrumented with the list of ids
of the policies whose `evaluate` is invoked, in invocation order.  Awaiting
each `evaluate({ method, params, target })` in turn: a fault aborts the loop
and propagates; a falsy result throws
`PolicyViolationError(policy.name, method, target)`; otherwise the loop
continues. -/
def runPolicies : List Policy → String → Value → PolicyTarget →
    List Nat × Except PolicyFailure Unit
  | [], _, _, _ => ([], .ok ())
  | p :: rest, methodName, params, target =>
    match p.evaluate methodName params target with
    | .fault e => ([p.id], .error (.evalFault e))
    | .ok truthy =>
      if truthy then
        (p.id :: (runPolicies rest methodName params target).1,
         (runPolicies rest methodName params target).2)
      else
        ([p.id], .error (.violation p.name methodName target))

/-- A gated-capable object.  `methods` are its callable members with their
original implementations; `policyMap` models the Map stored behind
`INSTANCE_POLICY_SYMBOL` (insertion-ordered, method name to policy chain);
`wrapped` models the Set stored behind `INSTANCE_WRAPPED_SYMBOL`.  A fresh,
never-gated instance has both empty, matching the lazy
`Object.defineProperty` initialisation. -/
structure Instance where
  methods : List (String × (List Value → Value))
  policyMap : List (String × List Policy)
  wrapped : List String

/-- Insertion-ordered association-list read, the model of `Map.prototype.get`. -/
def lookupChain : List (String × List Policy) → String → Option (List Policy)
  | [], _ => none
  | (k, v) :: rest, key => if k = key then some v else lookupChain rest key

/-- Insertion-ordered association-list write, the model of `Map.prototype.set`. -/
def setChain : List (String × List Policy) → String → List Policy →
    List (String × List Policy)
  | [], key, v => [(key, v)]
  | (k, v') :: rest, key, v =>
    if k = key then (key, v) :: rest else (k, v') :: setChain rest key v

/-- The check `typeof instance[methodName] === 'function'`. -/
def callable (inst : Instance) (methodName : String) : Bool :=
  (inst.methods.find? (fun kv => kv.1 == methodName)).isSome

/-- The original implementation bound at wrap time
(`instance[methodName].bind(instance)`). -/
def originalImpl (inst : Instance) (methodName : String) : List Value → Value :=
  match inst.methods.find? (fun kv => kv.1 == methodName) with
  | some kv => kv.2
  | none => fun _ => .undefined

/-- The `list.includes(policy)` reference-identity check. -/
def chainHasPolicy (chain : List Policy) (policy : Policy) : Bool :=
  chain.any (fun q => q.id == policy.id)

/-- Body of the inner `for (const methodName of methods)` loop of
`_withPolicyGate`: skip names that are not callable on the instance; create
the method's chain entry lazily; append the policy unless the identical
policy object is already in the chain; install the wrapper and mark the
method wrapped unless it already is. -/
def gateMethod (policy : Policy) (inst : Instance) (methodName : String) : Instance :=
  if callable inst methodName then
    let chain := (lookupChain inst.policyMap methodName).getD []
    let chain' := if chainHasPolicy chain policy then chain else chain ++ [policy]
    let pm := setChain inst.policyMap methodName chain'
    let wr := if methodName ∈ inst.wrapped then inst.wrapped
              else inst.wrapped ++ [methodName]
    ⟨inst.methods, pm, wr⟩
  else inst

/-- Resolution of `policy.method` into the list of names to gate.  A falsy
`method` field (`undefined` or the empty string) reaches the
`methods = Set()` line, which throws a TypeError because the `Set`
constructor cannot be called without `new`; the capability scan that follows
it is therefore unreachable. -/
def resolveMethods (policy : Policy) : Except JsError (List String) :=
  match policy.method with
  | .absent => .error .setRequiresNew
  | .one s => if s = "" then .error .setRequiresNew else .ok [s]
  | .many ss => .ok ss

/-- One iteration of the outer `for (const policy of this._policies)` loop of
`_withPolicyGate`: skip the policy if its target does not match, otherwise
resolve its method names and gate each of them. -/
def applyPolicy (target : PolicyTarget) (inst : Instance) (policy : Policy) :
    Except JsError Instance :=
  if matchesTarget policy target then
    match resolveMethods policy with
    | .error e => .error e
    | .ok ms => .ok (ms.foldl (gateMethod policy) inst)
  else .ok inst

/-- `_withPolicyGate(instance, target)` run over a list of registered
policies, in registration order. -/
def withPolicyGate (policies : List Policy) (target : PolicyTarget)
    (inst : Instance) : Except JsError Instance :=
  match policies with
  | [] => .ok inst
  | p :: rest =>
    match applyPolicy target inst p with
    | .error e => .error e
    | .ok inst' => withPolicyGate rest target inst'

/-- Observable outcome of invoking a wrapped method: which evaluators ran (by
policy id, in order), the argument lists the original implementation was
invoked with, and the value or failure delivered to the caller. -/
structure CallResult where
  evalOrder : List Nat
  origCalls : List (List Value)
  result : Except PolicyFailure Value

/-- The wrapper's `const params = args[0]`: the first call argument, or
`undefined` when the method is called with no arguments. -/
def firstArg (args : List Value) : Value :=
  args.headD .undefined

/-- Invocation of the wrapper `_withPolicyGate` installs: it takes
`args[0]` as `params`, reads the method's policy chain from the instance's
policy map at call time (`methodPolicyMap.get(methodName) || []`), runs
`runPolicies`, and only on success invokes the original bound implementation
with the full original argument list.  The wrapper is an `async` function, so
its result reaches the caller through a promise even when the original
implementation is synchronous. -/
def callWrapped (inst : Instance) (target : PolicyTarget) (methodName : String)
    (args : List Value) : CallResult :=
  let params := firstArg args
  let chain := (lookupChain inst.policyMap methodName).getD []
  let r := runPolicies chain methodName params target
  match r.2 with
  | .error e => ⟨r.1, [], .error e⟩
  | .ok _ => ⟨r.1, [args], .ok (.promise (originalImpl inst methodName args))⟩

/-- A policy object as it reaches `registerPolicies`, before validation:
`evaluateIsFunction` records whether its `evaluate` member is callable at
all. -/
structure RawPolicy where
  policy : Policy
  evaluateIsFunction : Bool

/-- The validation `!p.name || typeof p.evaluate !== 'function'`, negated:
an entry is valid when its name is truthy and `evaluate` is callable. -/
def validRaw (r : RawPolicy) : Bool :=
  r.policy.name != "" && r.evaluateIsFunction

/-- The `registerPolicies` loop: each entry is validated and then immediately
pushed onto `this._policies`; the first invalid entry throws a TypeError,
leaving the entries before it already appended.  Returns the final
`_policies` list and whether a TypeError was thrown. -/
def registerPolicies (st : List Policy) (batch : List RawPolicy) :
    List Policy × Bool :=
  match batch with
  | [] => (st, false)
  | r :: rest =>
    if validRaw r then registerPolicies (st ++ [r.policy]) rest
    else (st, true)

/-- Association-list read over a world of instances keyed by identity. -/
def lookupInst : List (Nat × Instance) → Nat → Option Instance
  | [], _ => none
  | (k, v) :: rest, key => if k = key then some v else lookupInst rest key

/-- Gating one instance among many: the bookkeeping `_withPolicyGate`
installs lives behind symbols on the gated object itself, so applying the
gate to the instance with identity `iid` rewrites that entry only. -/
def gateWorld (policies : List Policy) (target : PolicyTarget) (iid : Nat) :
    List (Nat × Instance) → Except JsError (List (Nat × Instance))
  | [] => .ok []
  | (j, inst) :: rest =>
    match gateWorld policies target iid rest with
    | .error e => .error e
    | .ok rest' =>
      if j = iid then
        match withPolicyGate policies target inst with
        | .error e => .error e
        | .ok inst' => .ok ((j, inst') :: rest')
      else .ok ((j, inst) :: rest')

/-! Helper lemmas shared by several claim theorems. -/

/-- Running the evaluator over a chain whose prefix evaluates truthy invokes
the whole prefix in order and then behaves as the evaluator of the suffix. -/
theorem runPolicies_append_pass (methodName : String) (params : Value)
    (target : PolicyTarget) (suffix : List Policy) :
    ∀ pre : List Policy,
      (∀ q ∈ pre, q.evaluate methodName params target = .ok true) →
      runPolicies (pre ++ suffix) methodName params target =
        (pre.map Policy.id ++ (runPolicies suffix methodName params target).1,
         (runPolicies suffix methodName params target).2) := by
  intro pre
  induction pre with
  | nil => intro _; simp [runPolicies]
  | cons q qs ih =>
    intro hpass
    have hq : q.evaluate methodName params target = .ok true := hpass q (by simp)
    have hqs := ih (fun r hr => hpass r (by simp [hr]))
    simp [runPolicies, hq, hqs]

theorem lookupChain_setChain_self (pm : List (String × List Policy))
    (k : String) (v : List Policy) :
    lookupChain (setChain pm k v) k = some v := by
  induction pm with
  | nil => simp [setChain, lookupChain]
  | cons kv rest ih =>
    by_cases h : kv.1 = k
    · simp [setChain, lookupChain, h]
    · simp [setChain, lookupChain, h, ih]

theorem lookupChain_setChain_ne (pm : List (String × List Policy))
    (k k' : String) (v : List Policy) (h : k ≠ k') :
    lookupChain (setChain pm k v) k' = lookupChain pm k' := by
  induction pm with
  | nil => simp [setChain, lookupChain, h]
  | cons kv rest ih =>
    by_cases hk : kv.1 = k
    · simp [setChain, lookupChain, hk, h, Ne.symm h]
    · simp only [setChain, lookupChain, hk, if_neg hk]
      by_cases hk' : kv.1 = k'
      · simp [lookupChain, hk']
      · simp [lookupChain, hk', ih]

theorem setChain_of_lookup_eq (pm : List (String × List Policy))
    (k : String) (v : List Policy) (h : lookupChain pm k = some v) :
    setChain pm k v = pm := by
  induction pm with
  | nil => simp [lookupChain] at h
  | cons kv rest ih =>
    obtain ⟨a, b⟩ := kv
    by_cases hk : a = k
    · simp only [lookupChain, hk, if_pos rfl] at h
      cases h
      simp [setChain, hk]
    · simp only [lookupChain, hk, if_neg hk] at h
      simp [setChain, hk, ih h]

/-! Claim theorems. -/

/-- C1: if a gated method's chain is a truthy prefix followed by a policy P1
whose `evaluate` returns falsy and then further policies, invoking the method
runs the chain sequentially, calls P1's `evaluate` exactly once, never calls
the `evaluate` of any later policy, fails with a PolicyViolation carrying the
rejecting policy's name, the method name and the scope descriptor, and never
invokes the original method. -/
theorem gated_call_short_circuit
    (inst : Instance) (target : PolicyTarget) (methodName : String)
    (args : List Value) (pre : List Policy) (p1 : Policy) (rest : List Policy)
    (hchain : lookupChain inst.policyMap methodName = some (pre ++ p1 :: rest))
    (hpre : ∀ q ∈ pre, q.evaluate methodName (firstArg args) target = .ok true)
    (hfalsy : p1.evaluate methodName (firstArg args) target = .ok false)
    (hids : ∀ q ∈ rest, q.id ∉ pre.map Policy.id ++ [p1.id]) :
    (callWrapped inst target methodName args).evalOrder = pre.map Policy.id ++ [p1.id] ∧
    (∀ q ∈ rest, q.id ∉ (callWrapped inst target methodName args).evalOrder) ∧
    (callWrapped inst target methodName args).result =
      .error (.violation p1.name methodName target) ∧
    (callWrapped inst target methodName args).origCalls = [] := by
  have hsuffix : runPolicies (p1 :: rest) methodName (firstArg args) target
      = ([p1.id], .error (.violation p1.name methodName target)) := by
    simp [runPolicies, hfalsy]
  have hrun : runPolicies (pre ++ p1 :: rest) methodName (firstArg args) target
      = (pre.map Policy.id ++ [p1.id],
         .error (.violation p1.name methodName target)) := by
    rw [runPolicies_append_pass methodName (firstArg args) target (p1 :: rest) pre hpre,
      hsuffix]
  have hcall : callWrapped inst target methodName args =
      ⟨pre.map Policy.id ++ [p1.id], [],
       .error (.violation p1.name methodName target)⟩ := by
    simp [callWrapped, hchain, hrun]
  refine ⟨by rw [hcall], ?_, by rw [hcall], by rw [hcall]⟩
  intro q hq
  rw [hcall]
  exact hids q hq

def wReject : Policy := ⟨1, "p1", none, .one "sendTransaction", fun _ _ _ => .ok false⟩

def wAccept : Policy := ⟨2, "p2", none, .one "sendTransaction", fun _ _ _ => .ok true⟩

def wInst : Instance :=
  ⟨[("sendTransaction", fun _ => .num 7)],
   [("sendTransaction", [wReject, wAccept])], ["sendTransaction"]⟩

/-- Witness for C1 at a concrete two-policy chain. -/
theorem gated_call_short_circuit_witness :
    (callWrapped wInst emptyTarget "sendTransaction" [.num 0]).evalOrder = [wReject.id] ∧
    (∀ q ∈ [wAccept], q.id ∉
      (callWrapped wInst emptyTarget "sendTransaction" [.num 0]).evalOrder) ∧
    (callWrapped wInst emptyTarget "sendTransaction" [.num 0]).result =
      .error (.violation wReject.name "sendTransaction" emptyTarget) ∧
    (callWrapped wInst emptyTarget "sendTransaction" [.num 0]).origCalls = [] := by
  have h := gated_call_short_circuit wInst emptyTarget "sendTransaction" [.num 0]
    [] wReject [wAccept] rfl (by intro q hq; simp at hq) rfl
    (by intro q hq; simp at hq; subst hq; decide)
  simpa using h

/-- C8: a policy whose `evaluate` itself throws or rejects makes the gated
call fail with that fault propagated unchanged; the fault is not a
PolicyViolation, and the original method is never invoked. -/
theorem evaluator_fault_propagates
    (inst : Instance) (target : PolicyTarget) (methodName : String)
    (args : List Value) (pre : List Policy) (p : Policy) (rest : List Policy) (e : Nat)
    (hchain : lookupChain inst.policyMap methodName = some (pre ++ p :: rest))
    (hpre : ∀ q ∈ pre, q.evaluate methodName (firstArg args) target = .ok true)
    (hfault : p.evaluate methodName (firstArg args) target = .fault e) :
    (callWrapped inst target methodName args).result = .error (.evalFault e) ∧
    (∀ pn mn t, (PolicyFailure.evalFault e) ≠ .violation pn mn t) ∧
    (callWrapped inst target methodName args).origCalls = [] := by
  have hsuffix : runPolicies (p :: rest) methodName (firstArg args) target
      = ([p.id], .error (.evalFault e)) := by
    simp [runPolicies, hfault]
  have hrun : runPolicies (pre ++ p :: rest) methodName (firstArg args) target
      = (pre.map Policy.id ++ [p.id], .error (.evalFault e)) := by
    rw [runPolicies_append_pass methodName (firstArg args) target (p :: rest) pre hpre,
      hsuffix]
  have hcall : callWrapped inst target methodName args =
      ⟨pre.map Policy.id ++ [p.id], [], .error (.evalFault e)⟩ := by
    simp [callWrapped, hchain, hrun]
  refine ⟨by rw [hcall], ?_, by rw [hcall]⟩
  intro pn mn t h
  cases h

def wFault : Policy := ⟨3, "broken", none, .one "transfer", fun _ _ _ => .fault 42⟩

def wFaultInst : Instance :=
  ⟨[("transfer", fun _ => .num 1)], [("transfer", [wFault])], ["transfer"]⟩

/-- Witness for C8 with a concrete throwing evaluator. -/
theorem evaluator_fault_propagates_witness :
    (callWrapped wFaultInst emptyTarget "transfer" [.num 0]).result =
      .error (.evalFault 42) ∧
    (∀ pn mn t, (PolicyFailure.evalFault 42) ≠ .violation pn mn t) ∧
    (callWrapped wFaultInst emptyTarget "transfer" [.num 0]).origCalls = [] := by
  have h := evaluator_fault_propagates wFaultInst emptyTarget "transfer" [.num 0]
    [] wFault [] 42 rfl (by intro q hq; simp at hq) rfl
  simpa using h

/-- C9: when every policy in the method's chain evaluates truthy, the
original implementation is invoked exactly once with exactly the original
arguments, and the caller receives the original method's result
(promise-delivered) unchanged. -/
theorem gated_call_pass_through
    (inst : Instance) (target : PolicyTarget) (methodName : String)
    (args : List Value) (chain : List Policy)
    (hchain : lookupChain inst.policyMap methodName = some chain)
    (hpass : ∀ q ∈ chain, q.evaluate methodName (firstArg args) target = .ok true) :
    (callWrapped inst target methodName args).origCalls = [args] ∧
    (callWrapped inst target methodName args).result =
      .ok (.promise (originalImpl inst methodName args)) := by
  have hrun : runPolicies chain methodName (firstArg args) target
      = (chain.map Policy.id, .ok ()) := by
    have h := runPolicies_append_pass methodName (firstArg args) target [] chain hpass
    simpa [runPolicies] using h
  constructor <;> simp [callWrapped, hchain, hrun]

def wPass : Policy := ⟨4, "limit", none, .one "sendTransaction", fun _ _ _ => .ok true⟩

def wPassInst : Instance :=
  ⟨[("sendTransaction", fun _ => .num 7)],
   [("sendTransaction", [wPass])], ["sendTransaction"]⟩

/-- Witness for C9: the gated call returns the original result `7`. -/
theorem gated_call_pass_through_witness :
    (callWrapped wPassInst emptyTarget "sendTransaction" [.num 5]).origCalls =
      [[.num 5]] ∧
    (callWrapped wPassInst emptyTarget "sendTransaction" [.num 5]).result =
      .ok (.promise (.num 7)) := by
  have h := gated_call_pass_through wPassInst emptyTarget "sendTransaction" [.num 5]
    [wPass] rfl (by intro q hq; simp at hq; subst hq; rfl)
  simpa [originalImpl, wPassInst] using h

/-- C10: each policy's `evaluate` sees only the first call argument as
`params` (two calls whose first arguments agree run the evaluators
identically, whatever the later arguments), while the original
implementation, when it runs, receives the full original argument list, and
the wrapper's result is delivered through a promise even when the original
implementation is synchronous. -/
theorem wrapper_first_arg_async
    (inst : Instance) (target : PolicyTarget) (methodName : String)
    (a1 a2 : List Value) (hhead : firstArg a1 = firstArg a2) :
    (callWrapped inst target methodName a1).evalOrder =
      (callWrapped inst target methodName a2).evalOrder ∧
    (∀ e, (callWrapped inst target methodName a1).result = .error e ↔
          (callWrapped inst target methodName a2).result = .error e) ∧
    ((callWrapped inst target methodName a1).origCalls = [] ∨
     (callWrapped inst target methodName a1).origCalls = [a1]) ∧
    (∀ v, (callWrapped inst target methodName a1).result = .ok v →
          v = .promise (originalImpl inst methodName a1)) := by
  unfold callWrapped
  rw [hhead]
  rcases hr : (runPolicies ((lookupChain inst.policyMap methodName).getD [])
      methodName (firstArg a2) target).2 with e | u <;>
    simp [hr]

def wTwoArg : Policy := ⟨5, "first-only", none, .one "send", fun _ _ _ => .ok true⟩

def wTwoArgInst : Instance :=
  ⟨[("send", fun a => .num (a.length))], [("send", [wTwoArg])], ["send"]⟩

/-- Witness for C10 at a two-argument call versus a one-argument call with
the same first argument. -/
theorem wrapper_first_arg_async_witness :
    (callWrapped wTwoArgInst emptyTarget "send" [.num 1, .num 2]).evalOrder =
      (callWrapped wTwoArgInst emptyTarget "send" [.num 1]).evalOrder ∧
    (∀ e, (callWrapped wTwoArgInst emptyTarget "send" [.num 1, .num 2]).result = .error e ↔
          (callWrapped wTwoArgInst emptyTarget "send" [.num 1]).result = .error e) ∧
    ((callWrapped wTwoArgInst emptyTarget "send" [.num 1, .num 2]).origCalls = [] ∨
     (callWrapped wTwoArgInst emptyTarget "send" [.num 1, .num 2]).origCalls =
       [[.num 1, .num 2]]) ∧
    (∀ v, (callWrapped wTwoArgInst emptyTarget "send" [.num 1, .num 2]).result = .ok v →
          v = .promise (originalImpl wTwoArgInst "send" [.num 1, .num 2])) :=
  wrapper_first_arg_async wTwoArgInst emptyTarget "send" [.num 1, .num 2] [.num 1] rfl

/-- Per-field matching as the amended claim words it: a present **non-empty**
field must be string-equal to the scope's field; an absent or empty-string
field is a wildcard. -/
def fieldMatches (pf sf : Option String) : Bool :=
  match pf with
  | none => true
  | some v => v == "" || sf == some v

/-- Modelled from the amended spec wording of the target matcher: the policy
matches when its wallet field and, if a protocol target is given, its
blockchain and label sub-fields each match per `fieldMatches`; a policy with
no `target` matches every scope. -/
def matchesNonemptySpec (policy : Policy) (scope : PolicyTarget) : Bool :=
  let pt := policy.target.getD emptyTarget
  let tp := scope.protocol.getD emptyProto
  fieldMatches pt.wallet scope.wallet &&
    (match pt.protocol with
     | none => true
     | some pp => fieldMatches pp.blockchain tp.blockchain &&
                  fieldMatches pp.label tp.label)

theorem truthy_bne_eq_not_fieldMatches (pf sf : Option String) :
    (truthyStr pf && (pf != sf)) = !(fieldMatches pf sf) := by
  rw [Bool.eq_iff_iff]
  cases pf with
  | none => simp [truthyStr, fieldMatches]
  | some v =>
    by_cases hv : v = ""
    · subst hv; simp [truthyStr, fieldMatches]
    · cases sf with
      | none => simp [truthyStr, fieldMatches, hv]
      | some u =>
        simp only [truthyStr, fieldMatches, hv]
        simp [hv]
        exact ne_comm

def emptyWalletPolicy : Policy :=
  ⟨6, "empty-wallet", some ⟨some "", none⟩, .one "send", fun _ _ _ => .ok true⟩

/-- C7 counterexample: this policy's target *has* a `wallet` field — the
empty string — differing from the scope's wallet `"ethereum"`, yet the
matcher accepts the policy for that scope, because the code tests field
presence by JS truthiness and the empty string is falsy. -/
theorem matcher_empty_wallet_cex :
    (emptyWalletPolicy.target.getD emptyTarget).wallet = some "" ∧
    some "" ≠ (some "ethereum" : Option String) ∧
    matchesTarget emptyWalletPolicy ⟨some "ethereum", none⟩ = true :=
  ⟨rfl, by decide, rfl⟩

/-- C7 amended: the target matcher is a pure predicate equal to per-field
exact string equality where a present **non-empty** field must agree and
absent or empty-string fields are wildcards; in particular a policy with no
`target` matches every scope. -/
theorem matcher_eq_nonempty_spec (policy : Policy) (scope : PolicyTarget) :
    matchesTarget policy scope = matchesNonemptySpec policy scope := by
  unfold matchesTarget matchesNonemptySpec
  simp only [truthy_bne_eq_not_fieldMatches]
  cases hpt : (policy.target.getD emptyTarget).protocol with
  | none =>
    cases hfw : fieldMatches (policy.target.getD emptyTarget).wallet scope.wallet <;>
      simp [hfw]
  | some pp =>
    cases hfw : fieldMatches (policy.target.getD emptyTarget).wallet scope.wallet <;>
    cases hb : fieldMatches pp.blockchain (scope.protocol.getD emptyProto).blockchain <;>
    cases hl : fieldMatches pp.label (scope.protocol.getD emptyProto).label <;>
      simp [hfw, hb, hl]

def validEntry : RawPolicy :=
  ⟨⟨7, "good", none, .one "send", fun _ _ _ => .ok true⟩, true⟩

def invalidEntry : RawPolicy :=
  ⟨⟨8, "", none, .one "send", fun _ _ _ => .ok true⟩, true⟩

/-- C3 counterexample: a batch whose second entry is invalid makes
`registerPolicies` throw, yet the first entry has already been appended to
the (initially empty) process-wide list — the list is changed although the
call threw. -/
theorem registerPolicies_not_atomic_cex :
    (registerPolicies [] [validEntry, invalidEntry]).2 = true ∧
    (registerPolicies [] [validEntry, invalidEntry]).1 = [validEntry.policy] ∧
    ([validEntry.policy] : List Policy) ≠ [] :=
  ⟨rfl, rfl, by simp⟩

/-- C3 amended: `registerPolicies` validates and appends one entry at a
time, in order: exactly the entries strictly before the first invalid entry
are appended (all of them when every entry is valid), and the call throws
iff the batch contains an invalid entry; the list is unchanged on a throw
only when the first invalid entry is the first entry. -/
theorem registerPolicies_appends_until_first_invalid
    (st : List Policy) (batch : List RawPolicy) :
    (registerPolicies st batch).1 =
      st ++ (batch.takeWhile validRaw).map RawPolicy.policy ∧
    ((registerPolicies st batch).2 = true ↔ ∃ r ∈ batch, validRaw r = false) := by
  induction batch generalizing st with
  | nil => simp [registerPolicies]
  | cons r rest ih =>
    cases hv : validRaw r with
    | true =>
      have h := ih (st ++ [r.policy])
      constructor
      · rw [show registerPolicies st (r :: rest)
            = registerPolicies (st ++ [r.policy]) rest by simp [registerPolicies, hv]]
        rw [h.1]
        simp [List.takeWhile_cons, hv]
      · rw [show registerPolicies st (r :: rest)
            = registerPolicies (st ++ [r.policy]) rest by simp [registerPolicies, hv]]
        rw [h.2]
        simp [hv]
    | false =>
      constructor
      · simp [registerPolicies, hv, List.takeWhile_cons]
      · constructor
        · intro _
          exact ⟨r, by simp, hv⟩
        · intro _
          simp [registerPolicies, hv]

def noMethodPolicy : Policy :=
  ⟨9, "global-policy", none, .absent, fun _ _ _ => .ok true⟩

def freshInst : Instance := ⟨[("transfer", fun _ => .num 1)], [], []⟩

/-- C2: the capability scan the claim describes is unreachable: gating an
instance while any matching registered policy omits the `method` field makes
`_withPolicyGate` throw the TypeError raised by calling `Set()` without
`new`, so no method of the instance is gated and the policy is never invoked
for any call.  The repo's own test "global policy runs on all mutating
methods if method not specified" expects the scan to succeed, so the code
contradicts its own tests. -/
theorem untargeted_policy_gate_throws
    (ps : List Policy) (target : PolicyTarget) (inst : Instance)
    (h : ∃ p ∈ ps, matchesTarget p target = true ∧ p.method = .absent) :
    ∃ e, withPolicyGate ps target inst = .error e := by
  induction ps generalizing inst with
  | nil => simp at h
  | cons q rest ih =>
    rcases h with ⟨p, hp, hmatch, habs⟩
    rcases List.mem_cons.mp hp with rfl | hmem
    · exact ⟨.setRequiresNew,
        by simp [withPolicyGate, applyPolicy, hmatch, resolveMethods, habs]⟩
    · cases happ : applyPolicy target inst q with
      | error e => exact ⟨e, by simp [withPolicyGate, happ]⟩
      | ok mid =>
        rcases ih mid ⟨p, hmem, hmatch, habs⟩ with ⟨e, he⟩
        exact ⟨e, by simp [withPolicyGate, happ, he]⟩

/-- Witness for C2: a single global no-`method` policy makes gating a fresh
instance throw. -/
theorem untargeted_policy_gate_throws_witness :
    ∃ e, withPolicyGate [noMethodPolicy] emptyTarget freshInst = .error e :=
  untargeted_policy_gate_throws [noMethodPolicy] emptyTarget freshInst
    ⟨noMethodPolicy, by simp, rfl, rfl⟩

/-- C6: the gate's bookkeeping lives behind symbols on the gated object
itself, so gating one instance of a world of instances leaves every other
instance — its methods, policy map and wrapped-method set — unchanged. -/
theorem gate_per_instance_isolation
    (ps : List Policy) (target : PolicyTarget) (iid : Nat)
    (w w' : List (Nat × Instance))
    (h : gateWorld ps target iid w = .ok w')
    (j : Nat) (hj : j ≠ iid) :
    lookupInst w' j = lookupInst w j := by
  induction w generalizing w' with
  | nil =>
    simp only [gateWorld] at h
    injection h with h
    subst h
    rfl
  | cons kv rest ih =>
    obtain ⟨k, inst⟩ := kv
    simp only [gateWorld] at h
    split at h
    · cases h
    · rename_i rest' hrec
      split at h
      · rename_i hk
        split at h
        · cases h
        · rename_i inst' hg
          injection h with h
          subst h
          have hkj : k ≠ j := fun hh => hj (by rw [← hh]; exact hk)
          simp only [lookupInst, if_neg hkj]
          exact ih rest' hrec
      · rename_i hk
        injection h with h
        subst h
        by_cases hkj : k = j
        · simp [lookupInst, hkj]
        · simp only [lookupInst, if_neg hkj]
          exact ih rest' hrec

def isoPolicy : Policy := ⟨10, "iso", none, .one "send", fun _ _ _ => .ok true⟩

def isoA : Instance := ⟨[("send", fun _ => .num 1)], [], []⟩

def isoB : Instance := ⟨[("send", fun _ => .num 2)], [], []⟩

def isoAGated : Instance :=
  ⟨[("send", fun _ => .num 1)], [("send", [isoPolicy])], ["send"]⟩

/-- Witness for C6: gating instance 0 leaves instance 1 exactly as it was. -/
theorem gate_per_instance_isolation_witness :
    lookupInst [(0, isoAGated), (1, isoB)] 1 = lookupInst [(0, isoA), (1, isoB)] 1 :=
  gate_per_instance_isolation [isoPolicy] emptyTarget 0
    [(0, isoA), (1, isoB)] [(0, isoAGated), (1, isoB)] rfl 1 (by decide)

def pFirst : Policy := ⟨11, "pA", none, .one "send", fun _ _ _ => .ok true⟩

def pLater : Policy := ⟨12, "pB", none, .one "send", fun _ _ _ => .ok true⟩

def c4inst : Instance := ⟨[("send", fun _ => .num 3)], [], []⟩

def c4gated : Instance :=
  ⟨[("send", fun _ => .num 3)], [("send", [pFirst])], ["send"]⟩

/-- C4 counterexample: the instance is gated while only `pA` is registered;
`pB` (global, targeting the same method) is then registered with the manager
— the process-wide list becomes `[pA, pB]` with no throw — and only then is
the gated method invoked.  The call still evaluates only `pA`: `pB` is never
evaluated, because `registerPolicies` only appends to the manager's
`_policies` array while the installed wrapper reads the instance's own
policy map, which registration does not touch. -/
theorem later_registered_policy_skipped_cex :
    withPolicyGate [pFirst] emptyTarget c4inst = .ok c4gated ∧
    registerPolicies [pFirst] [⟨pLater, true⟩] = ([pFirst, pLater], false) ∧
    (callWrapped c4gated emptyTarget "send" [.num 0]).evalOrder = [pFirst.id] ∧
    pLater.id ∉ (callWrapped c4gated emptyTarget "send" [.num 0]).evalOrder :=
  ⟨rfl, rfl, rfl, by decide⟩

/-- C4 amended: the wrapper looks the policy chain up at call time from the
instance's per-method policy map, so a matching policy appended to that
chain after the method was already wrapped — by applying the gate to the
instance again — is evaluated on the next call; but a policy that is merely
registered with the manager after the instance was gated is not added to the
instance's chains and therefore not evaluated until the gate is re-applied
to the instance. -/
theorem call_time_chain_lookup
    (inst : Instance) (target : PolicyTarget) (methodName : String)
    (args : List Value) (p : Policy) (inst' : Instance) (chain : List Policy)
    (hchain : lookupChain inst.policyMap methodName = some chain)
    (hmatch : matchesTarget p target = true)
    (hmeth : p.method = .one methodName)
    (hname : methodName ≠ "")
    (hcall : callable inst methodName = true)
    (hnew : chainHasPolicy chain p = false)
    (hgate : withPolicyGate [p] target inst = .ok inst')
    (hpass : ∀ q ∈ chain ++ [p],
      q.evaluate methodName (firstArg args) target = .ok true) :
    (callWrapped inst' target methodName args).evalOrder =
      chain.map Policy.id ++ [p.id] := by
  have happ : withPolicyGate [p] target inst
      = .ok (gateMethod p inst methodName) := by
    simp [withPolicyGate, applyPolicy, hmatch, resolveMethods, hmeth, hname]
  rw [happ] at hgate
  injection hgate with hgate
  subst hgate
  have hchain' : lookupChain (gateMethod p inst methodName).policyMap methodName
      = some (chain ++ [p]) := by
    simp [gateMethod, hcall, hchain, hnew, lookupChain_setChain_self]
  have hrun : runPolicies (chain ++ [p]) methodName (firstArg args) target
      = ((chain ++ [p]).map Policy.id, .ok ()) := by
    have h := runPolicies_append_pass methodName (firstArg args) target []
      (chain ++ [p]) hpass
    simpa [runPolicies] using h
  simp [callWrapped, hchain', hrun]

def c4regated : Instance :=
  ⟨[("send", fun _ => .num 3)], [("send", [pFirst, pLater])], ["send"]⟩

/-- Witness for the amended C4: after re-applying the gate with the newly
registered policy, the call evaluates both policies in order. -/
theorem call_time_chain_lookup_witness :
    (callWrapped c4regated emptyTarget "send" [.num 0]).evalOrder =
      [pFirst].map Policy.id ++ [pLater.id] :=
  call_time_chain_lookup c4gated emptyTarget "send" [.num 0] pLater c4regated
    [pFirst] rfl rfl rfl (by decide) rfl rfl rfl
    (by intro q hq; simp at hq; rcases hq with rfl | rfl <;> rfl)

/-- The policy is recorded in the method's chain (by object identity) and
the method is marked wrapped. -/
def gatedAt (inst : Instance) (p : Policy) (methodName : String) : Prop :=
  chainHasPolicy ((lookupChain inst.policyMap methodName).getD []) p = true ∧
  methodName ∈ inst.wrapped

theorem methods_gateMethod (p : Policy) (inst : Instance) (m : String) :
    (gateMethod p inst m).methods = inst.methods := by
  unfold gateMethod
  by_cases hc : callable inst m = true
  · rw [if_pos hc]
  · rw [if_neg hc]

theorem callable_gateMethod (p : Policy) (inst : Instance) (m m2 : String) :
    callable (gateMethod p inst m) m2 = callable inst m2 := by
  unfold callable
  rw [methods_gateMethod]

/-- Explicit shape of `gateMethod` on a callable method. -/
theorem gateMethod_pos (p : Policy) (inst : Instance) (m : String)
    (hc : callable inst m = true) :
    gateMethod p inst m =
      ⟨inst.methods,
       setChain inst.policyMap m
         (if chainHasPolicy ((lookupChain inst.policyMap m).getD []) p
          then (lookupChain inst.policyMap m).getD []
          else (lookupChain inst.policyMap m).getD [] ++ [p]),
       if m ∈ inst.wrapped then inst.wrapped else inst.wrapped ++ [m]⟩ := by
  unfold gateMethod
  rw [if_pos hc]

theorem gateMethod_neg (p : Policy) (inst : Instance) (m : String)
    (hc : ¬ callable inst m = true) : gateMethod p inst m = inst := by
  unfold gateMethod
  rw [if_neg hc]

/-- Re-gating a method that already has the policy in its chain and is
already wrapped changes nothing: the `includes` check skips the append and
the wrapped-set check skips re-wrapping. -/
theorem gateMethod_noop (p : Policy) (inst : Instance) (m : String)
    (h : gatedAt inst p m) : gateMethod p inst m = inst := by
  obtain ⟨hhas, hwr⟩ := h
  by_cases hc : callable inst m = true
  · rw [gateMethod_pos p inst m hc]
    have hlook : lookupChain inst.policyMap m
        = some ((lookupChain inst.policyMap m).getD []) := by
      cases hl : lookupChain inst.policyMap m with
      | none =>
        rw [hl] at hhas
        simp [chainHasPolicy] at hhas
      | some c => rfl
    rw [if_pos hhas, setChain_of_lookup_eq _ _ _ hlook, if_pos hwr]
  · exact gateMethod_neg p inst m hc

theorem gatedAt_gateMethod (p q : Policy) (inst : Instance) (m m2 : String)
    (h : gatedAt inst q m2) : gatedAt (gateMethod p inst m) q m2 := by
  obtain ⟨hhas, hwr⟩ := h
  by_cases hc : callable inst m = true
  · simp only [gatedAt, gateMethod_pos p inst m hc]
    constructor
    · by_cases hm : m = m2
      · subst hm
        rw [lookupChain_setChain_self]
        by_cases hcp : chainHasPolicy ((lookupChain inst.policyMap m).getD []) p = true
        · rw [if_pos hcp]
          exact hhas
        · rw [if_neg hcp]
          show chainHasPolicy ((lookupChain inst.policyMap m).getD [] ++ [p]) q = true
          simp only [chainHasPolicy, List.any_append] at hhas ⊢
          simp [hhas]
      · rw [lookupChain_setChain_ne _ _ _ _ hm]
        exact hhas
    · by_cases hw2 : m ∈ inst.wrapped
      · rw [if_pos hw2]
        exact hwr
      · rw [if_neg hw2]
        exact List.mem_append_left _ hwr
  · rw [gateMethod_neg p inst m hc]
    exact ⟨hhas, hwr⟩

theorem gatedAt_gateList (p q : Policy) (ms : List String) (inst : Instance)
    (m2 : String) (h : gatedAt inst q m2) :
    gatedAt (ms.foldl (gateMethod p) inst) q m2 := by
  induction ms generalizing inst with
  | nil => exact h
  | cons m ms ih =>
    rw [List.foldl_cons]
    exact ih _ (gatedAt_gateMethod p q inst m m2 h)

theorem gateMethod_establishes (p : Policy) (inst : Instance) (m : String)
    (hc : callable inst m = true) : gatedAt (gateMethod p inst m) p m := by
  simp only [gatedAt, gateMethod_pos p inst m hc]
  constructor
  · rw [lookupChain_setChain_self]
    by_cases hcp : chainHasPolicy ((lookupChain inst.policyMap m).getD []) p = true
    · rw [if_pos hcp]
      exact hcp
    · rw [if_neg hcp]
      show chainHasPolicy ((lookupChain inst.policyMap m).getD [] ++ [p]) p = true
      simp [chainHasPolicy, List.any_append]
  · by_cases hw : m ∈ inst.wrapped
    · rw [if_pos hw]
      exact hw
    · rw [if_neg hw]
      exact List.mem_append_right _ (by simp)

theorem methods_gateList (p : Policy) (ms : List String) (inst : Instance) :
    (ms.foldl (gateMethod p) inst).methods = inst.methods := by
  induction ms generalizing inst with
  | nil => rfl
  | cons m ms ih =>
    rw [List.foldl_cons, ih, methods_gateMethod]

theorem gateList_establishes (p : Policy) (ms : List String) (inst : Instance) :
    ∀ m ∈ ms, callable inst m = true →
      gatedAt (ms.foldl (gateMethod p) inst) p m := by
  induction ms generalizing inst with
  | nil => intro m hm; cases hm
  | cons m0 ms ih =>
    intro m hm hc
    rw [List.foldl_cons]
    rcases List.mem_cons.mp hm with rfl | hmem
    · exact gatedAt_gateList p p ms _ m (gateMethod_establishes p inst m hc)
    · exact ih (gateMethod p inst m0) m hmem
        (by rw [callable_gateMethod]; exact hc)

theorem callable_eq_of_methods_eq (i j : Instance) (h : i.methods = j.methods)
    (m : String) : callable i m = callable j m := by
  unfold callable
  rw [h]

theorem applyPolicy_ok_invariants (target : PolicyTarget) (inst inst' : Instance)
    (p : Policy) (h : applyPolicy target inst p = .ok inst') :
    inst'.methods = inst.methods ∧
    (∀ q m2, gatedAt inst q m2 → gatedAt inst' q m2) ∧
    (matchesTarget p target = true →
      ∀ ms, resolveMethods p = .ok ms →
        ∀ m ∈ ms, callable inst m = true → gatedAt inst' p m) := by
  unfold applyPolicy at h
  by_cases hm : matchesTarget p target = true
  · rw [if_pos hm] at h
    cases hr : resolveMethods p with
    | error e =>
      rw [hr] at h
      cases h
    | ok ms =>
      rw [hr] at h
      injection h with h
      subst h
      refine ⟨methods_gateList p ms inst, ?_, ?_⟩
      · intro q m2 hq
        exact gatedAt_gateList p q ms inst m2 hq
      · intro _ ms' hms' m hmem hc
        injection hms' with e
        subst e
        exact gateList_establishes p ms inst m hmem hc
  · rw [if_neg hm] at h
    injection h with h
    subst h
    exact ⟨rfl, fun q m2 hq => hq, fun hmm => absurd hmm hm⟩

theorem withPolicyGate_ok_invariants (ps : List Policy) (target : PolicyTarget) :
    ∀ inst inst', withPolicyGate ps target inst = .ok inst' →
      inst'.methods = inst.methods ∧
      (∀ q m2, gatedAt inst q m2 → gatedAt inst' q m2) ∧
      (∀ p ∈ ps, matchesTarget p target = true →
        ∀ ms, resolveMethods p = .ok ms →
          ∀ m ∈ ms, callable inst m = true → gatedAt inst' p m) := by
  induction ps with
  | nil =>
    intro inst inst' h
    injection h with h
    subst h
    exact ⟨rfl, fun q m2 hq => hq, by intro p hp; cases hp⟩
  | cons p0 rest ih =>
    intro inst inst' h
    unfold withPolicyGate at h
    cases ha : applyPolicy target inst p0 with
    | error e =>
      rw [ha] at h
      cases h
    | ok mid =>
      rw [ha] at h
      obtain ⟨hm1, hpres1, hest1⟩ := applyPolicy_ok_invariants target inst mid p0 ha
      obtain ⟨hm2, hpres2, hest2⟩ := ih mid inst' h
      refine ⟨hm2.trans hm1, fun q m2 hq => hpres2 q m2 (hpres1 q m2 hq), ?_⟩
      intro p hp hmatch ms hms m hmem hc
      rcases List.mem_cons.mp hp with rfl | hpmem
      · exact hpres2 p m (hest1 hmatch ms hms m hmem hc)
      · refine hest2 p hpmem hmatch ms hms m hmem ?_
        rw [callable_eq_of_methods_eq mid inst hm1]
        exact hc

theorem withPolicyGate_ok_resolves (ps : List Policy) (target : PolicyTarget) :
    ∀ inst inst', withPolicyGate ps target inst = .ok inst' →
      ∀ p ∈ ps, matchesTarget p target = true →
        ∃ ms, resolveMethods p = .ok ms := by
  induction ps with
  | nil =>
    intro inst inst' _ p hp
    cases hp
  | cons p0 rest ih =>
    intro inst inst' h p hp hmatch
    unfold withPolicyGate at h
    cases ha : applyPolicy target inst p0 with
    | error e =>
      rw [ha] at h
      cases h
    | ok mid =>
      rw [ha] at h
      rcases List.mem_cons.mp hp with rfl | hpmem
      · unfold applyPolicy at ha
        rw [if_pos hmatch] at ha
        cases hr : resolveMethods p with
        | error e =>
          rw [hr] at ha
          cases ha
        | ok ms => exact ⟨ms, rfl⟩
      · exact ih mid inst' h p hpmem hmatch

theorem gateList_noop (p0 : Policy) (inst : Instance) :
    ∀ s : List String, (∀ m ∈ s, callable inst m = true → gatedAt inst p0 m) →
      s.foldl (gateMethod p0) inst = inst := by
  intro s
  induction s with
  | nil => intro _; rfl
  | cons m0 s ih =>
    intro hs
    rw [List.foldl_cons]
    have hstep : gateMethod p0 inst m0 = inst := by
      by_cases hc : callable inst m0 = true
      · exact gateMethod_noop p0 inst m0 (hs m0 (by simp) hc)
      · exact gateMethod_neg p0 inst m0 hc
    rw [hstep]
    exact ih (fun m hmem hc => hs m (by simp [hmem]) hc)

theorem withPolicyGate_noop (ps : List Policy) (target : PolicyTarget) :
    ∀ inst : Instance,
      (∀ p ∈ ps, matchesTarget p target = true →
        ∀ ms, resolveMethods p = .ok ms →
          ∀ m ∈ ms, callable inst m = true → gatedAt inst p m) →
      (∀ p ∈ ps, matchesTarget p target = true →
        ∃ ms, resolveMethods p = .ok ms) →
      withPolicyGate ps target inst = .ok inst := by
  induction ps with
  | nil => intro inst _ _; rfl
  | cons p0 rest ih =>
    intro inst h hok
    have happ : applyPolicy target inst p0 = .ok inst := by
      unfold applyPolicy
      by_cases hm : matchesTarget p0 target = true
      · rw [if_pos hm]
        obtain ⟨ms, hms⟩ := hok p0 (by simp) hm
        rw [hms]
        show Except.ok (ms.foldl (gateMethod p0) inst) = Except.ok inst
        rw [gateList_noop p0 inst ms
          (fun m hmem hc => h p0 (by simp) hm ms hms m hmem hc)]
      · rw [if_neg hm]
    unfold withPolicyGate
    rw [happ]
    exact ih inst (fun p hp => h p (by simp [hp]))
      (fun p hp => hok p (by simp [hp]))

/-- C5: applying the gate a second time with the same policies is a no-op —
no policy already present in a chain is appended again and no method is
re-wrapped — and a single call to a gated method invokes each policy of its
chain exactly once, in order: the number of evaluator invocations equals the
chain length. -/
theorem gate_idempotent (ps : List Policy) (target : PolicyTarget)
    (inst i1 : Instance) (h1 : withPolicyGate ps target inst = .ok i1) :
    withPolicyGate ps target i1 = .ok i1 ∧
    (∀ m chain args, lookupChain i1.policyMap m = some chain →
      (∀ q ∈ chain, q.evaluate m (firstArg args) target = .ok true) →
      (callWrapped i1 target m args).evalOrder = chain.map Policy.id) := by
  obtain ⟨hmeq, _, hest⟩ := withPolicyGate_ok_invariants ps target inst i1 h1
  have hok := withPolicyGate_ok_resolves ps target inst i1 h1
  constructor
  · apply withPolicyGate_noop
    · intro p hp hmatch ms hms m hmem hc
      refine hest p hp hmatch ms hms m hmem ?_
      rw [← callable_eq_of_methods_eq i1 inst hmeq]
      exact hc
    · exact hok
  · intro m chain args hchain hpass
    have hrun : runPolicies chain m (firstArg args) target
        = (chain.map Policy.id, .ok ()) := by
      have h := runPolicies_append_pass m (firstArg args) target [] chain hpass
      simpa [runPolicies] using h
    simp [callWrapped, hchain, hrun]

def wIdem : Policy := ⟨13, "idem", none, .one "send", fun _ _ _ => .ok true⟩

def wIdemInst : Instance := ⟨[("send", fun _ => .num 4)], [], []⟩

def wIdemGated : Instance :=
  ⟨[("send", fun _ => .num 4)], [("send", [wIdem])], ["send"]⟩

/-- Witness for C5: re-gating the already-gated instance changes nothing,
and a single call runs the one-policy chain exactly once. -/
theorem gate_idempotent_witness :
    withPolicyGate [wIdem] emptyTarget wIdemGated = .ok wIdemGated ∧
    (callWrapped wIdemGated emptyTarget "send" [.num 0]).evalOrder =
      [wIdem].map Policy.id := by
  have h := gate_idempotent [wIdem] emptyTarget wIdemInst wIdemGated rfl
  exact ⟨h.1, h.2 "send" [wIdem] [.num 0] rfl
    (by intro q hq; simp at hq; subst hq; rfl)⟩

end WDK
